import Mathlib

/-!
Verification of the `dixit` typed persistence engine
(`record_persist`: schema derivation, column-major row buffer, table writer).

The Rust code is shallowly embedded:

* `Field` mirrors the subset of `parquet::record::Field` the engine produces;
  floating-point payloads (`f32`/`f64`, and the `f64` a `Decimal` converts to)
  are carried as raw bit patterns and never interpreted arithmetically.
* `PType` is the grammar of Persistable types: all built-in implementations of
  `record_persist/src/lib.rs` plus the output of the derive generator
  (`record_persist_derive/src/parquet.rs`).  A derived struct with fields
  `f1 .. fn` is encoded as the chain `sfield f1 (sfield f2 (... snil))`;
  tuple structs are the same chain with `"0", "1", ...` as field names
  (the generator treats them identically, except that `ignore` is only
  honoured on named fields, hence always `false` for tuple structs).
* `PValue` is the corresponding value grammar; collection values (`Vec`,
  `HashSet`, `HashMap`) carry their Debug rendering, which is the only thing
  `append` uses of them; a `DateTime` carries its exact (mathematical)
  number of nanoseconds since the Unix epoch.
* Machine-integer casts are explicit: `u32 as i32` / `u64 as i64` are
  `castU32` / `castU64`; `as u64` on `i64` is `u64cast`; `u128 as u64`
  is `% 2 ^ 64`.
* The filesystem visible to a `TableWriter` is the list of
  `NNNNNNNNN.parquet` files in its table directory, modelled as
  `(index, row count)` pairs; the exclusive-create scan of `flush` probes
  exactly these names.
-/

set_option maxHeartbeats 1000000

namespace Dixit

/-- Physical storage type of a Parquet leaf column (`parquet::basic::Type`). -/
inductive PhysicalType where
  | boolean
  | int32
  | int64
  | float
  | double
  | byteArray
deriving DecidableEq, Repr

/-- Column repetition (`parquet::basic::Repetition`); the engine only ever
builds REQUIRED and OPTIONAL leaves. -/
inductive Repetition where
  | required
  | optional
deriving DecidableEq, Repr

/-- Timestamp unit (`parquet::basic::TimeUnit`). -/
inductive PTimeUnit where
  | nanos
  | micros
  | millis
deriving DecidableEq, Repr

/-- Logical type annotations the engine attaches
(`parquet::basic::LogicalType`, restricted to the constructors used). -/
inductive PLogicalType where
  | string
  | timestamp (adjustedUtc : Bool) (unit : PTimeUnit)
deriving DecidableEq, Repr

/-- A leaf column descriptor, as built by
`Type::primitive_type_builder(name, physical)
  .with_repetition(..).with_logical_type(..)`. -/
structure Leaf where
  name : String
  physical : PhysicalType
  repetition : Repetition
  logical : Option PLogicalType
deriving DecidableEq, Repr

/-- `parquet::record::Field`, the tagged union flowing through `RowBuffer`
(only the constructors the engine produces).  `float`/`double` carry raw bit
patterns. -/
inductive Field where
  | null
  | bool (b : Bool)
  | int (v : Int)
  | uint (v : Nat)
  | long (v : Int)
  | ulong (v : Nat)
  | float (bits : Nat)
  | double (bits : Nat)
  | str (s : String)
deriving DecidableEq, Repr

/-- The grammar of Persistable types: every built-in impl in
`record_persist/src/lib.rs` plus derive-generated structs (encoded as
`sfield`/`snil` chains) and enums.  `pstring` covers `String`, `&str` and
`CompactString` (their impls are identical); `pcollection` covers `Vec`,
`HashSet` and `HashMap` (one stringified BYTE_ARRAY leaf each). -/
inductive PType where
  | pbool
  | pi16
  | pi32
  | pi64
  | pisize
  | pu16
  | pu32
  | pu64
  | pusize
  | pf32
  | pf64
  | pstring
  | pcollection
  | pdatetime
  | pduration
  | pdecimal
  | poption (t : PType)
  | ppair (x y : PType)
  | parray (t : PType) (n : Nat)
  | sfield (nm : String) (ig : Bool) (attr : Option PTimeUnit) (ty : PType) (rest : PType)
  | snil
  | penum (nm : String) (variants : List String)
deriving DecidableEq, Repr

/-- Values of Persistable types.  `vCons`/`vNil` chains are the values of
both `sfield` chains and fixed arrays; `vEnum i` is the `i`-th variant. -/
inductive PValue where
  | vBool (b : Bool)
  | vInt (n : Int)
  | vUInt (n : Nat)
  | vFloat (bits : Nat)
  | vDouble (bits : Nat)
  | vStr (s : String)
  | vDateTime (nanos : Int)
  | vDuration (nanos : Nat)
  | vDecimal (bits : Nat)
  | vColl (dbg : String)
  | vNone
  | vSome (v : PValue)
  | vPair (a b : PValue)
  | vCons (v : PValue) (rest : PValue)
  | vNil
  | vEnum (i : Nat)
deriving DecidableEq, Repr

/-- `chrono::DateTime::timestamp_nanos_opt`: the nanosecond count when it
fits in an `i64`, `None` otherwise. -/
def timestampNanosOpt (n : Int) : Option Int :=
  if -(2 ^ 63) ≤ n ∧ n < 2 ^ 63 then some n else none

/-- The Rust cast `i64 as u64` (two's-complement reinterpretation). -/
def u64cast (n : Int) : Nat := (n % (2 ^ 64 : Int)).toNat

/-- The Rust cast `u32 as i32` (two's-complement reinterpretation),
used by `RowBuffer::record` to funnel `UInt` into an INT32 column. -/
def castU32 (u : Nat) : Int :=
  if u < 2 ^ 31 then (u : Int) else (u : Int) - 2 ^ 32

/-- The Rust cast `u64 as i64` (two's-complement reinterpretation),
used by `RowBuffer::record` to funnel `ULong` into an INT64 column. -/
def castU64 (u : Nat) : Int :=
  if u < 2 ^ 63 then (u : Int) else (u : Int) - 2 ^ 64

/-- Name of a fixed-array element leaf:
`match prefix { Some(p) => format!("{}_{}", p, i), None => i.to_string() }`. -/
def idxName (pfx : Option String) (i : Nat) : String :=
  match pfx with
  | some p => p ++ "_" ++ toString i
  | none => toString i

/-- Name of a derived struct field leaf:
`match prefix { Some(p) => format!("{}_{}", p, name), None => name }`. -/
def childName (pfx : Option String) (nm : String) : String :=
  match pfx with
  | some p => p ++ "_" ++ nm
  | none => nm

/-- Logical type produced by a `persist_timestamp(unit = ..)` attribute:
`Timestamp { is_adjusted_to_u_t_c: true, unit }`. -/
def attrLogical (attr : Option PTimeUnit) : Option PLogicalType :=
  attr.map fun u => .timestamp true u

/-- Sequence a list of optional leaf lists, concatenating the results
(`none` propagates). -/
def seqConcat {α : Type} : List (Option (List α)) → Option (List α)
  | [] => some []
  | o :: os => o.bind fun x => (seqConcat os).map fun xs => x ++ xs

/-- `T::schema(fields, prefix, repetition_override, logical_type)` for every
Persistable type, returning the leaves it pushes.  `none` models the
`prefix.expect("name must be set")` panic of the primitive impls when no
name is available. -/
def schemaF : PType → Option String → Option Repetition → Option PLogicalType →
    Option (List Leaf)
  | .pbool, pfx, ro, lt => pfx.map fun p => [⟨p, .boolean, ro.getD .required, lt⟩]
  | .pi16, pfx, ro, lt => pfx.map fun p => [⟨p, .int32, ro.getD .required, lt⟩]
  | .pi32, pfx, ro, lt => pfx.map fun p => [⟨p, .int32, ro.getD .required, lt⟩]
  | .pi64, pfx, ro, lt => pfx.map fun p => [⟨p, .int64, ro.getD .required, lt⟩]
  | .pisize, pfx, ro, lt => pfx.map fun p => [⟨p, .int64, ro.getD .required, lt⟩]
  | .pu16, pfx, ro, lt => pfx.map fun p => [⟨p, .int32, ro.getD .required, lt⟩]
  | .pu32, pfx, ro, lt => pfx.map fun p => [⟨p, .int32, ro.getD .required, lt⟩]
  | .pu64, pfx, ro, lt => pfx.map fun p => [⟨p, .int64, ro.getD .required, lt⟩]
  | .pusize, pfx, ro, lt => pfx.map fun p => [⟨p, .int64, ro.getD .required, lt⟩]
  | .pf32, pfx, ro, lt => pfx.map fun p => [⟨p, .float, ro.getD .required, lt⟩]
  | .pf64, pfx, ro, lt => pfx.map fun p => [⟨p, .double, ro.getD .required, lt⟩]
  | .pstring, pfx, ro, _ => pfx.map fun p => [⟨p, .byteArray, ro.getD .required, some .string⟩]
  | .pcollection, pfx, ro, _ =>
      pfx.map fun p => [⟨p, .byteArray, ro.getD .required, some .string⟩]
  | .pdatetime, pfx, ro, _ =>
      pfx.map fun p => [⟨p, .int64, ro.getD .required, some (.timestamp true .nanos)⟩]
  | .pduration, pfx, ro, lt =>
      (pfx.map fun p => p ++ "_ns").map fun p => [⟨p, .int64, ro.getD .required, lt⟩]
  | .pdecimal, pfx, ro, _ => pfx.map fun p => [⟨p, .double, ro.getD .required, some .string⟩]
  | .poption t, pfx, _, lt => schemaF t pfx (some .optional) lt
  | .ppair x y, none, ro, lt =>
      (schemaF x none ro lt).bind fun xs => (schemaF y none ro lt).map fun ys => xs ++ ys
  | .ppair x y, some p, ro, lt =>
      (schemaF x (some (p ++ "_0")) ro lt).bind fun xs =>
        (schemaF y (some (p ++ "_1")) ro lt).map fun ys => xs ++ ys
  | .parray t n, pfx, ro, lt =>
      seqConcat ((List.range n).map fun i => schemaF t (some (idxName pfx i)) ro lt)
  | .sfield nm ig attr ty rest, pfx, ro, lt =>
      (if ig then some [] else schemaF ty (some (childName pfx nm)) ro (attrLogical attr)).bind
        fun xs => (schemaF rest pfx ro lt).map fun ys => xs ++ ys
  | .snil, _, _, _ => some []
  | .penum nm _, pfx, ro, _ => some [⟨pfx.getD nm, .byteArray, ro.getD .required, some .string⟩]

/-- Number of leaves a type contributes (specification-level count; proved
to agree with `schemaF` and `appendF`). -/
def leafCount : PType → Nat
  | .poption t => leafCount t
  | .ppair x y => leafCount x + leafCount y
  | .parray t n => n * leafCount t
  | .sfield _ ig _ ty rest => (if ig then 0 else leafCount ty) + leafCount rest
  | .snil => 0
  | _ => 1

/-- `Persistable::field_count`: run `Self::schema` with prefix `"any"` and
count the leaves (the Rust memoization is pure caching and is dropped). -/
def fieldCountF (t : PType) : Nat :=
  match schemaF t (some "any") none none with
  | some ls => ls.length
  | none => 0

/-- `v.append(row)` for every Persistable type: the list of `Field`s pushed,
`none` when the value does not have the shape of the type (unreachable in
Rust, where the type system enforces it). -/
def appendF : PType → PValue → Option (List Field)
  | .pbool, .vBool b => some [.bool b]
  | .pi16, .vInt n => some [.int n]
  | .pi32, .vInt n => some [.int n]
  | .pi64, .vInt n => some [.long n]
  | .pisize, .vInt n => some [.long n]
  | .pu16, .vUInt n => some [.uint n]
  | .pu32, .vUInt n => some [.uint n]
  | .pu64, .vUInt n => some [.ulong n]
  | .pusize, .vUInt n => some [.ulong n]
  | .pf32, .vFloat bits => some [.float bits]
  | .pf64, .vDouble bits => some [.double bits]
  | .pstring, .vStr s => some [.str s]
  | .pcollection, .vColl dbg => some [.str dbg]
  | .pdatetime, .vDateTime n => some [.ulong (u64cast ((timestampNanosOpt n).getD 0))]
  | .pduration, .vDuration n => some [.ulong (n % 2 ^ 64)]
  | .pdecimal, .vDecimal bits => some [.double bits]
  | .poption t, .vNone => some (List.replicate (fieldCountF t) .null)
  | .poption t, .vSome v => appendF t v
  | .ppair x y, .vPair a b =>
      (appendF x a).bind fun fa => (appendF y b).map fun fb => fa ++ fb
  | .parray t (n + 1), .vCons v rest =>
      (appendF t v).bind fun fa => (appendF (.parray t n) rest).map fun fb => fa ++ fb
  | .parray _ 0, .vNil => some []
  | .sfield _ ig _ ty rest, .vCons v vs =>
      (if ig then some [] else appendF ty v).bind fun fa =>
        (appendF rest vs).map fun fb => fa ++ fb
  | .snil, .vNil => some []
  | .penum _ vs, .vEnum i =>
      if h : i < vs.length then some [.str (vs.get ⟨i, h⟩)] else none
  | _, _ => none

/-- The column-major staging buffer (`record_persist`'s `row.rs`).
`rows` is the lane-per-leaf matrix, `currentCol` the cursor within the row
being built.  The per-physical-type scratch vectors of the Rust struct are
pure reusable temporaries of `record`; they appear below as the outputs of
the gather step. -/
structure RowBuffer where
  rows : List (List Field)
  currentCol : Nat
deriving DecidableEq, Repr

instance : Inhabited RowBuffer := ⟨⟨[], 0⟩⟩

/-- `RowBuffer::begin`: reset the column cursor (the Rust `debug_assert_eq!`
is compiled out in release builds and not modelled). -/
def RowBuffer.begin (b : RowBuffer) : RowBuffer := { b with currentCol := 0 }

/-- `RowBuffer::push`: grow the lane list up to the cursor if needed, append
the value to the cursor's lane, advance the cursor. -/
def RowBuffer.push (b : RowBuffer) (f : Field) : RowBuffer :=
  let rows :=
    if b.rows.length ≤ b.currentCol then
      b.rows ++ List.replicate (b.currentCol + 1 - b.rows.length) []
    else b.rows
  { rows := rows.set b.currentCol ((rows.getD b.currentCol []) ++ [f]),
    currentCol := b.currentCol + 1 }

/-- `RowBuffer::len`: length of the first lane (0 if there are none). -/
def RowBuffer.len (b : RowBuffer) : Nat :=
  (b.rows.head?.map List.length).getD 0

/-- `RowBuffer::is_empty`. -/
def RowBuffer.isEmpty (b : RowBuffer) : Bool := b.len == 0

/-- The kind of typed column writer parquet hands back for a column
(`parquet::column::writer::ColumnWriter`); `otherW` stands for the
INT96 / FIXED_LEN_BYTE_ARRAY writers the `_` arm rejects as
"unsupported column writer type". -/
inductive ColumnWriterKind where
  | boolW
  | int32W
  | int64W
  | floatW
  | doubleW
  | byteArrayW
  | otherW
deriving DecidableEq, Repr

/-- Column writer kind determined by a leaf's physical type. -/
def physToWriter : PhysicalType → ColumnWriterKind
  | .boolean => .boolW
  | .int32 => .int32W
  | .int64 => .int64W
  | .float => .floatW
  | .double => .doubleW
  | .byteArray => .byteArrayW

/-- Gather loop of the BoolColumnWriter arm of `RowBuffer::record`. -/
def gatherBools : List Field → Except String (List Bool)
  | [] => .ok []
  | f :: rest =>
    match f with
    | .bool b => (gatherBools rest).map fun xs => b :: xs
    | .null => gatherBools rest
    | _ => .error "invalid type, expected bool"

/-- Gather loop of the Int32ColumnWriter arm: `Int` values pass through,
`UInt` values are cast with `as i32` (bit pattern preserved). -/
def gatherI32s : List Field → Except String (List Int)
  | [] => .ok []
  | f :: rest =>
    match f with
    | .int v => (gatherI32s rest).map fun xs => v :: xs
    | .uint u => (gatherI32s rest).map fun xs => castU32 u :: xs
    | .null => gatherI32s rest
    | _ => .error "invalid type, expected int32"

/-- Gather loop of the Int64ColumnWriter arm: `Long` values pass through,
`ULong` values are cast with `as i64` (bit pattern preserved). -/
def gatherI64s : List Field → Except String (List Int)
  | [] => .ok []
  | f :: rest =>
    match f with
    | .long v => (gatherI64s rest).map fun xs => v :: xs
    | .ulong u => (gatherI64s rest).map fun xs => castU64 u :: xs
    | .null => gatherI64s rest
    | _ => .error "invalid type, expected int64"

/-- Gather loop of the FloatColumnWriter arm. -/
def gatherF32s : List Field → Except String (List Nat)
  | [] => .ok []
  | f :: rest =>
    match f with
    | .float bits => (gatherF32s rest).map fun xs => bits :: xs
    | .null => gatherF32s rest
    | _ => .error "invalid type, expected float"

/-- Gather loop of the DoubleColumnWriter arm. -/
def gatherF64s : List Field → Except String (List Nat)
  | [] => .ok []
  | f :: rest =>
    match f with
    | .double bits => (gatherF64s rest).map fun xs => bits :: xs
    | .null => gatherF64s rest
    | _ => .error "invalid type, expected double"

/-- Gather loop of the ByteArrayColumnWriter arm. -/
def gatherStrs : List Field → Except String (List String)
  | [] => .ok []
  | f :: rest =>
    match f with
    | .str s => (gatherStrs rest).map fun xs => s :: xs
    | .null => gatherStrs rest
    | _ => .error "invalid type, expected byte array"

/-- Definition levels handed to `write_batch`: 1 for a present value,
0 for `Null` (the `not_null` vector). -/
def notNullLevels (col : List Field) : List Nat :=
  col.map fun f => if f = .null then 0 else 1

/-- The typed batch written for one column, together with its definition
levels. -/
inductive BatchValues where
  | bools (xs : List Bool) (lv : List Nat)
  | i32s (xs : List Int) (lv : List Nat)
  | i64s (xs : List Int) (lv : List Nat)
  | f32s (xs : List Nat) (lv : List Nat)
  | f64s (xs : List Nat) (lv : List Nat)
  | strs (xs : List String) (lv : List Nat)
deriving DecidableEq, Repr

/-- One iteration of the column loop of `RowBuffer::record`: match the
column writer's type, gather the matching values (skipping nulls), write
the batch.  A field whose tag does not match is a fatal `ParquetError`. -/
def writeColumn (k : ColumnWriterKind) (col : List Field) : Except String BatchValues :=
  match k with
  | .boolW => (gatherBools col).map fun xs => .bools xs (notNullLevels col)
  | .int32W => (gatherI32s col).map fun xs => .i32s xs (notNullLevels col)
  | .int64W => (gatherI64s col).map fun xs => .i64s xs (notNullLevels col)
  | .floatW => (gatherF32s col).map fun xs => .f32s xs (notNullLevels col)
  | .doubleW => (gatherF64s col).map fun xs => .f64s xs (notNullLevels col)
  | .byteArrayW => (gatherStrs col).map fun xs => .strs xs (notNullLevels col)
  | .otherW => .error "unsupported column writer type"

/-- The column loop of `RowBuffer::record`.  A lane count different from the
schema's column count can only fail (`next_column` unwrap, or closing a row
group with unwritten columns) and is modelled as an error. -/
def recordColumns : List ColumnWriterKind → List (List Field) → Except String (List BatchValues)
  | [], [] => .ok []
  | k :: ks, col :: cols =>
    (writeColumn k col).bind fun bv => (recordColumns ks cols).map fun rest => bv :: rest
  | _, _ => .error "column count does not match schema"

/-- `RowBuffer::record`: no-op returning 0 rows when empty, otherwise drain
every lane as one row group and clear the lanes (keeping the lane list).
Returns the cleared buffer, the written batches and the row count. -/
def RowBuffer.record (b : RowBuffer) (kinds : List ColumnWriterKind) :
    Except String (RowBuffer × List BatchValues × Nat) :=
  if b.len = 0 then .ok (b, [], 0)
  else
    (recordColumns kinds b.rows).map fun bvs =>
      ({ b with rows := b.rows.map fun _ => [] }, bvs, b.len)

/-- `PersistConfig` (`config.rs`); the `tables` hash set is modelled as a
list. -/
structure PersistConfig where
  directory : String
  keep : Bool
  tables : List String
deriving DecidableEq, Repr

/-- `PersistError` (`error.rs`). -/
inductive PersistError where
  | other (msg : String)
  | parquet (msg : String)
  | io (msg : String)
deriving DecidableEq, Repr

/-- `TableWriter` (`writer.rs`) together with its table directory: `files`
is the list of `NNNNNNNNN.parquet` files currently in `current_file_path`,
as `(index, row count)` pairs (the scan in `flush` probes exactly such
names). -/
structure TableWriter where
  flushSize : Nat
  fileIndex : Nat
  buffer : RowBuffer
  enabled : Bool
  fields : List Leaf
  schema : Option (List Leaf)
  autoFlush : Bool
  files : List (Nat × Nat)
deriving DecidableEq, Repr

/-- `BUFFERED_ROWS`, the default flush threshold. -/
def bufferedRows : Nat := 1000000

/-- Observable filesystem effects of `TableWriter::new`. -/
structure NewEffects where
  createdDir : Bool
  wipedDir : Bool
deriving DecidableEq, Repr

/-- `TableWriter::new(path_prefix, persist_config)`.  `existing` is the
directory's prior contents (relevant when `keep = true`); the returned
effects record whether the table directory was created and whether it was
wiped first.  Note the Rust guard for both effects is
`!persist_config.directory.is_empty()`, not `enabled`. -/
def TableWriter.new (pfx : String) (cfg : PersistConfig) (existing : List (Nat × Nat)) :
    TableWriter × NewEffects :=
  let enabled := (cfg.tables.isEmpty || cfg.tables.contains pfx) && cfg.directory != ""
  let wiped := cfg.directory != "" && !cfg.keep
  ({ flushSize := bufferedRows
     fileIndex := 0
     buffer := default
     enabled := enabled
     fields := []
     schema := none
     autoFlush := true
     files := if wiped then [] else existing },
   { createdDir := cfg.directory != "", wipedDir := wiped })

/-- Fuelled version of the file-name scan (the fuel only serves
termination; `existing.length + 1` probes always reach a free index,
see `findFreeAux_spec`). -/
def findFreeAux : Nat → List Nat → Nat → Nat
  | 0, _, start => start
  | fuel + 1, existing, start =>
    if start ∈ existing then findFreeAux fuel existing (start + 1) else start

/-- The file-name scan of `TableWriter::flush`: starting at `start`, probe
`NNNNNNNNN.parquet` names upward until one does not exist, and return its
index. -/
def findFree (existing : List Nat) (start : Nat) : Nat :=
  findFreeAux (existing.length + 1) existing start

/-- `TableWriter::flush`.  Returns `(error?, writer-after)`, mirroring
`&mut self → Result`.  On the success path the scan's chosen index is
created exclusively (it does not exist, so `File::create_new` succeeds),
the buffer is drained into it and cleared.  If the parquet serialisation
itself failed, the created file would remain partial on disk; no claim
exercises that path and the buffer is left as-is there. -/
def TableWriter.flush (w : TableWriter) : Option PersistError × TableWriter :=
  if w.buffer.isEmpty || !w.enabled then (none, w)
  else
    match w.schema with
    | none => (some (.other "schema has not been created"), w)
    | some sch =>
      let chosen := findFree (w.files.map Prod.fst) w.fileIndex
      let w1 := { w with fileIndex := chosen + 1 }
      match w1.buffer.record (sch.map fun l => physToWriter l.physical) with
      | .error e =>
          (some (.other e), { w1 with files := w1.files ++ [(chosen, 0)] })
      | .ok (b2, _, n) =>
          (none, { w1 with buffer := b2, files := w1.files ++ [(chosen, n)] })

/-- `TableWriter::flush_if_needed`. -/
def TableWriter.flushIfNeeded (w : TableWriter) : Option PersistError × TableWriter :=
  if w.buffer.len ≥ w.flushSize then w.flush else (none, w)

/-- `TableWriter::begin`: when enabled, flush first if the buffer reached
the threshold, then open a row scope. -/
def TableWriter.begin (w : TableWriter) : Option PersistError × TableWriter :=
  if w.enabled then
    match (if w.buffer.len ≥ w.flushSize then w.flush else (none, w)) with
    | (some e, w1) => (some e, w1)
    | (none, w1) => (none, { w1 with buffer := w1.buffer.begin })
  else (none, w)

/-- `RowBuilder::record`: when enabled, derive the leaf descriptors from the
record type on the very first record (prefix `None`), then append the
value's fields to the buffer.  A missing leaf name panics in Rust
(`expect("name must be set")`); it is modelled as an error and is not
reachable from any claim. -/
def TableWriter.recordVal (w : TableWriter) (t : PType) (v : PValue) :
    Option PersistError × TableWriter :=
  if w.enabled then
    match (if w.schema = none then schemaF t none none none else some []) with
    | none => (some (.other "panic: name must be set"), w)
    | some newFields =>
      let w1 := { w with fields := w.fields ++ newFields }
      match appendF t v with
      | some fs => (none, { w1 with buffer := fs.foldl RowBuffer.push w1.buffer })
      | none => (some (.parquet "append failed"), w1)
  else (none, w)

/-- `RowBuilder::end`: when enabled, freeze the schema on the first row's
end, then auto-flush if configured. -/
def TableWriter.endRow (w : TableWriter) : Option PersistError × TableWriter :=
  if w.enabled then
    let w1 := if w.schema = none then { w with schema := some w.fields } else w
    if w1.autoFlush then w1.flushIfNeeded else (none, w1)
  else (none, w)

/-- Sequencing of fallible writer operations (`?` propagation). -/
def andThen (r : Option PersistError × TableWriter)
    (f : TableWriter → Option PersistError × TableWriter) :
    Option PersistError × TableWriter :=
  match r with
  | (some e, w) => (some e, w)
  | (none, w) => f w

/-- One producer iteration: `writer.begin()?.record(&v)?.end()?`. -/
def writeRow (t : PType) (v : PValue) (w : TableWriter) : Option PersistError × TableWriter :=
  andThen (andThen w.begin fun w1 => w1.recordVal t v) TableWriter.endRow

/-- `k` producer iterations with the same record. -/
def runRows (t : PType) (v : PValue) : Nat → TableWriter → Option PersistError × TableWriter
  | 0, w => (none, w)
  | k + 1, w => andThen (writeRow t v w) (runRows t v k)

/-- Fuelled decimal rendering (the fuel only serves termination; `n + 1`
steps always suffice, see `decDigits_length_le`). -/
def decDigitsAux : Nat → Nat → List Char
  | 0, _ => []
  | fuel + 1, n =>
    if n < 10 then [Char.ofNat (48 + n)]
    else decDigitsAux fuel (n / 10) ++ [Char.ofNat (48 + n % 10)]

/-- Decimal digits of `n`, most significant first (model of Rust's decimal
`Display` for the file-name format). -/
def decDigits (n : Nat) : List Char := decDigitsAux (n + 1) n

/-- `format!("{:0>9}", i)`: the decimal digits of `i`, left-padded with `'0'`
to at least 9 characters. -/
def pad9 (n : Nat) : String :=
  String.mk (List.replicate (9 - (decDigits n).length) '0' ++ decDigits n)

/-- `format!("{:0>9}.parquet", i)`, the name `flush` probes and creates. -/
def parquetFileName (i : Nat) : String := pad9 i ++ ".parquet"

/-- A leaf with its repetition forced to OPTIONAL (what wrapping in
`Option` does to every descendant leaf). -/
def setOpt (l : Leaf) : Leaf := { l with repetition := .optional }

/-- Does a field tag match a column writer's physical type?  (`Null` is
accepted everywhere; this is the per-arm gather test of
`RowBuffer::record`.) -/
def tagMatches : ColumnWriterKind → Field → Bool
  | .boolW, .bool _ => true
  | .int32W, .int _ => true
  | .int32W, .uint _ => true
  | .int64W, .long _ => true
  | .int64W, .ulong _ => true
  | .floatW, .float _ => true
  | .doubleW, .double _ => true
  | .byteArrayW, .str _ => true
  | _, _ => false

/-- A column the flush loop accepts: a supported writer type, every field
either `Null` or tag-matching. -/
def goodColumn (k : ColumnWriterKind) (col : List Field) : Prop :=
  k ≠ .otherW ∧ ∀ f ∈ col, f = .null ∨ tagMatches k f = true

instance (k : ColumnWriterKind) (col : List Field) : Decidable (goodColumn k col) := by
  unfold goodColumn; infer_instance

/-- The value an `Int`/`UInt` field contributes to an INT32 column
(`Null` contributes nothing, other tags are errors). -/
def pickI32 : Field → Option Int
  | .int v => some v
  | .uint u => some (castU32 u)
  | _ => none

/-- The value a `Long`/`ULong` field contributes to an INT64 column. -/
def pickI64 : Field → Option Int
  | .long v => some v
  | .ulong u => some (castU64 u)
  | _ => none

/-- The derived record `PriceLevel { price: f64, quantity: f64 }` of the
spec's nested-struct scenario. -/
def demoPriceLevel : PType :=
  .sfield "price" false none .pf64 (.sfield "quantity" false none .pf64 .snil)

/-- The derived record `{ tob: (PriceLevel, PriceLevel) }`. -/
def demoTob : PType :=
  .sfield "tob" false none (.ppair demoPriceLevel demoPriceLevel) .snil

/-- A `tob` value: `((1.0-bits, 2.0-bits), (3.0-bits, 4.0-bits))` (payloads
are opaque bit patterns). -/
def demoTobValue : PValue :=
  .vCons (.vPair (.vCons (.vDouble 1) (.vCons (.vDouble 2) .vNil))
    (.vCons (.vDouble 3) (.vCons (.vDouble 4) .vNil))) .vNil

/-- The derived record `{ a: i32 }` used by the roll scenario. -/
def rollT : PType := .sfield "a" false none .pi32 .snil

/-- A `{ a: 7 }` value. -/
def rollV : PValue := .vCons (.vInt 7) .vNil

/-- An enabled writer on a fresh directory with `flush_size = 3`
(spec scenario 5). -/
def rollWriter : TableWriter :=
  { (TableWriter.new "t" ⟨"data", false, []⟩ []).1 with flushSize := 3 }

/-- An enabled writer whose directory holds files `000000000.parquet` and
`000000005.parquet` (a gap at 1..4, as arises when `keep = true` and files
were removed or left by another producer), with one buffered row and a
frozen one-column schema. -/
def gapWriter : TableWriter :=
  { flushSize := bufferedRows
    fileIndex := 0
    buffer := ⟨[[.int 7]], 1⟩
    enabled := true
    fields := [⟨"a", .int32, .required, none⟩]
    schema := some [⟨"a", .int32, .required, none⟩]
    autoFlush := true
    files := [(0, 3), (5, 3)] }

/-- An enabled writer with one buffered row whose first row has not ended:
no schema has been frozen yet. -/
def unfrozenWriter : TableWriter :=
  { flushSize := bufferedRows
    fileIndex := 0
    buffer := ⟨[[.int 7]], 1⟩
    enabled := true
    fields := [⟨"a", .int32, .required, none⟩]
    schema := none
    autoFlush := true
    files := [] }

/-- A writer disabled by the whitelist: `"foo"` is not among
`tables = ["other"]` although `directory = "data"` is set. -/
def disabledWriter : TableWriter :=
  (TableWriter.new "foo" ⟨"data", false, ["other"]⟩ [(3, 7)]).1

theorem seqConcat_length {α : Type} (c : Nat) :
    ∀ os : List (Option (List α)), (∀ o ∈ os, ∃ xs, o = some xs ∧ xs.length = c) →
      ∃ ys, seqConcat os = some ys ∧ ys.length = os.length * c := by
  intro os
  induction os with
  | nil => intro _; exact ⟨[], rfl, by simp⟩
  | cons o os ih =>
    intro h
    obtain ⟨xs, rfl, hxs⟩ := h o (by simp)
    obtain ⟨ys, hys, hyl⟩ := ih fun o ho => h o (by simp [ho])
    exact ⟨xs ++ ys, by simp [seqConcat, hys], by simp [hxs, hyl]; ring⟩

theorem schemaF_some (t : PType) :
    ∀ (p : String) (ro : Option Repetition) (lt : Option PLogicalType),
      ∃ ls, schemaF t (some p) ro lt = some ls ∧ ls.length = leafCount t := by
  induction t
  case poption t ih => intro p ro lt; exact ih p (some .optional) lt
  case ppair x y ihx ihy =>
    intro p ro lt
    obtain ⟨xs, hx, hxl⟩ := ihx (p ++ "_0") ro lt
    obtain ⟨ys, hy, hyl⟩ := ihy (p ++ "_1") ro lt
    exact ⟨xs ++ ys, by simp [schemaF, hx, hy], by simp [hxl, hyl, leafCount]⟩
  case parray t n ih =>
    intro p ro lt
    obtain ⟨ys, hys, hyl⟩ := seqConcat_length (leafCount t)
      ((List.range n).map fun i => schemaF t (some (idxName (some p) i)) ro lt)
      (by
        intro o ho
        simp at ho
        obtain ⟨i, _, rfl⟩ := ho
        exact ih _ ro lt)
    exact ⟨ys, by simp [schemaF, hys], by simpa [leafCount] using hyl⟩
  case sfield nm ig attr ty rest ihty ihrest =>
    intro p ro lt
    obtain ⟨ys, hy, hyl⟩ := ihrest p ro lt
    by_cases hig : ig
    · exact ⟨ys, by simp [schemaF, hig, hy], by simp [hyl, leafCount, hig]⟩
    · obtain ⟨xs, hx, hxl⟩ := ihty (childName (some p) nm) ro (attrLogical attr)
      exact ⟨xs ++ ys, by simp [schemaF, hig, hx, hy], by simp [hxl, hyl, leafCount, hig]⟩
  all_goals exact fun p ro lt => ⟨_, rfl, rfl⟩

theorem fieldCountF_eq (t : PType) : fieldCountF t = leafCount t := by
  obtain ⟨ls, h, hl⟩ := schemaF_some t "any" none none
  simp [fieldCountF, h, hl]

theorem appendF_length :
    ∀ (v : PValue) (t : PType) (fs : List Field), appendF t v = some fs →
      fs.length = leafCount t := by
  intro v
  induction v with
  | vBool b => intro t fs h; cases t <;> simp [appendF] at h <;> simp [← h, leafCount]
  | vInt n => intro t fs h; cases t <;> simp [appendF] at h <;> simp [← h, leafCount]
  | vUInt n => intro t fs h; cases t <;> simp [appendF] at h <;> simp [← h, leafCount]
  | vFloat bits => intro t fs h; cases t <;> simp [appendF] at h <;> simp [← h, leafCount]
  | vDouble bits => intro t fs h; cases t <;> simp [appendF] at h <;> simp [← h, leafCount]
  | vStr s => intro t fs h; cases t <;> simp [appendF] at h <;> simp [← h, leafCount]
  | vDateTime n => intro t fs h; cases t <;> simp [appendF] at h <;> simp [← h, leafCount]
  | vDuration n => intro t fs h; cases t <;> simp [appendF] at h <;> simp [← h, leafCount]
  | vDecimal bits => intro t fs h; cases t <;> simp [appendF] at h <;> simp [← h, leafCount]
  | vColl dbg => intro t fs h; cases t <;> simp [appendF] at h <;> simp [← h, leafCount]
  | vNone =>
    intro t fs h
    cases t <;> simp [appendF] at h
    case poption t => simp [← h, leafCount, fieldCountF_eq]
  | vSome v ih =>
    intro t fs h
    cases t <;> simp [appendF] at h
    case poption t => simpa [leafCount] using ih _ _ h
  | vPair a b iha ihb =>
    intro t fs h
    cases t <;> simp [appendF, Option.bind_eq_some, Option.map_eq_some'] at h
    case ppair x y =>
      obtain ⟨fa, ha, fb, hb, rfl⟩ := h
      simp [leafCount, iha _ _ ha, ihb _ _ hb]
  | vCons v rest ihv ihrest =>
    intro t fs h
    cases t <;> try exact Option.noConfusion h
    case parray t n =>
      cases n with
      | zero => exact Option.noConfusion h
      | succ m =>
        simp [appendF, Option.bind_eq_some, Option.map_eq_some'] at h
        obtain ⟨fa, ha, fb, hb, rfl⟩ := h
        have hr := ihrest (.parray t m) _ hb
        simp [leafCount] at hr ⊢
        simp [ihv _ _ ha, hr, Nat.succ_mul, Nat.add_comm]
    case sfield nm ig attr ty rest2 =>
      by_cases hig : ig <;>
        simp [appendF, hig, Option.bind_eq_some, Option.map_eq_some'] at h
      · simpa [leafCount, hig] using ihrest _ _ h
      · obtain ⟨fa, ha, fb, hb, rfl⟩ := h
        simp [leafCount, hig, ihv _ _ ha, ihrest _ _ hb]
  | vNil =>
    intro t fs h
    cases t <;> try exact Option.noConfusion h
    case parray t n =>
      cases n with
      | zero => simp [appendF] at h; simp [h, leafCount]
      | succ m => exact Option.noConfusion h
    case snil => simp [appendF] at h; simp [h, leafCount]
  | vEnum i =>
    intro t fs h
    cases t <;> simp only [appendF] at h <;> try exact Option.noConfusion h
    case penum nm vs =>
      split at h
      · cases h; rfl
      · exact Option.noConfusion h

theorem gatherBools_ok (col : List Field) :
    (∃ xs, gatherBools col = .ok xs) ↔ ∀ f ∈ col, f = .null ∨ tagMatches .boolW f = true := by
  induction col with
  | nil => simp [gatherBools]
  | cons f rest ih =>
    cases f <;> cases hr : gatherBools rest <;>
      simp_all [gatherBools, tagMatches, Except.map]

theorem gatherI32s_ok (col : List Field) :
    (∃ xs, gatherI32s col = .ok xs) ↔ ∀ f ∈ col, f = .null ∨ tagMatches .int32W f = true := by
  induction col with
  | nil => simp [gatherI32s]
  | cons f rest ih =>
    cases f <;> cases hr : gatherI32s rest <;>
      simp_all [gatherI32s, tagMatches, Except.map]

theorem gatherI64s_ok (col : List Field) :
    (∃ xs, gatherI64s col = .ok xs) ↔ ∀ f ∈ col, f = .null ∨ tagMatches .int64W f = true := by
  induction col with
  | nil => simp [gatherI64s]
  | cons f rest ih =>
    cases f <;> cases hr : gatherI64s rest <;>
      simp_all [gatherI64s, tagMatches, Except.map]

theorem gatherF32s_ok (col : List Field) :
    (∃ xs, gatherF32s col = .ok xs) ↔ ∀ f ∈ col, f = .null ∨ tagMatches .floatW f = true := by
  induction col with
  | nil => simp [gatherF32s]
  | cons f rest ih =>
    cases f <;> cases hr : gatherF32s rest <;>
      simp_all [gatherF32s, tagMatches, Except.map]

theorem gatherF64s_ok (col : List Field) :
    (∃ xs, gatherF64s col = .ok xs) ↔ ∀ f ∈ col, f = .null ∨ tagMatches .doubleW f = true := by
  induction col with
  | nil => simp [gatherF64s]
  | cons f rest ih =>
    cases f <;> cases hr : gatherF64s rest <;>
      simp_all [gatherF64s, tagMatches, Except.map]

theorem gatherStrs_ok (col : List Field) :
    (∃ xs, gatherStrs col = .ok xs) ↔ ∀ f ∈ col, f = .null ∨ tagMatches .byteArrayW f = true := by
  induction col with
  | nil => simp [gatherStrs]
  | cons f rest ih =>
    cases f <;> cases hr : gatherStrs rest <;>
      simp_all [gatherStrs, tagMatches, Except.map]

theorem gatherI32s_eq (col : List Field) :
    ∀ xs, gatherI32s col = .ok xs → xs = col.filterMap pickI32 := by
  induction col with
  | nil => intro xs h; simp [gatherI32s] at h; simp [← h]
  | cons f rest ih =>
    intro xs h
    cases f <;> cases hr : gatherI32s rest <;>
      simp_all [gatherI32s, pickI32, Except.map]

theorem gatherI64s_eq (col : List Field) :
    ∀ xs, gatherI64s col = .ok xs → xs = col.filterMap pickI64 := by
  induction col with
  | nil => intro xs h; simp [gatherI64s] at h; simp [← h]
  | cons f rest ih =>
    intro xs h
    cases f <;> cases hr : gatherI64s rest <;>
      simp_all [gatherI64s, pickI64, Except.map]

theorem writeColumn_ok (k : ColumnWriterKind) (col : List Field) :
    (∃ bv, writeColumn k col = .ok bv) ↔ goodColumn k col := by
  cases k
  case boolW =>
    simp only [goodColumn]
    rw [← gatherBools_ok]
    cases hg : gatherBools col <;> simp [writeColumn, hg, Except.map]
  case int32W =>
    simp only [goodColumn]
    rw [← gatherI32s_ok]
    cases hg : gatherI32s col <;> simp [writeColumn, hg, Except.map]
  case int64W =>
    simp only [goodColumn]
    rw [← gatherI64s_ok]
    cases hg : gatherI64s col <;> simp [writeColumn, hg, Except.map]
  case floatW =>
    simp only [goodColumn]
    rw [← gatherF32s_ok]
    cases hg : gatherF32s col <;> simp [writeColumn, hg, Except.map]
  case doubleW =>
    simp only [goodColumn]
    rw [← gatherF64s_ok]
    cases hg : gatherF64s col <;> simp [writeColumn, hg, Except.map]
  case byteArrayW =>
    simp only [goodColumn]
    rw [← gatherStrs_ok]
    cases hg : gatherStrs col <;> simp [writeColumn, hg, Except.map]
  case otherW => simp [writeColumn, goodColumn]

theorem recordColumns_ok :
    ∀ (ks : List ColumnWriterKind) (cols : List (List Field)), ks.length = cols.length →
      ((∃ bvs, recordColumns ks cols = .ok bvs) ↔ ∀ p ∈ ks.zip cols, goodColumn p.1 p.2) := by
  intro ks
  induction ks with
  | nil =>
    intro cols h
    cases cols <;> simp_all [recordColumns]
  | cons k ks ih =>
    intro cols h
    cases cols with
    | nil => simp at h
    | cons col cols =>
      simp only [List.length_cons, Nat.add_right_cancel_iff] at h
      have hgk := writeColumn_ok k col
      have hgs := ih cols h
      cases hw : writeColumn k col <;> cases hrc : recordColumns ks cols <;>
        simp_all [recordColumns, Except.bind, Except.map]

theorem rowBufferRecord_ok (b : RowBuffer) (kinds : List ColumnWriterKind)
    (hlen : kinds.length = b.rows.length) :
    (∃ r, b.record kinds = .ok r) ↔
      (b.len = 0 ∨ ∀ p ∈ kinds.zip b.rows, goodColumn p.1 p.2) := by
  by_cases h0 : b.len = 0
  · simp [RowBuffer.record, h0]
  · have hrc := recordColumns_ok kinds b.rows hlen
    cases hr : recordColumns kinds b.rows <;>
      simp_all [RowBuffer.record, h0, Except.map]

theorem castU32_bits (u : Nat) (h : u < 2 ^ 32) :
    castU32 u % (2 ^ 32 : Int) = (u : Int) ∧ -(2 ^ 31) ≤ castU32 u ∧ castU32 u < 2 ^ 31 := by
  unfold castU32
  split <;> omega

theorem castU64_bits (u : Nat) (h : u < 2 ^ 64) :
    castU64 u % (2 ^ 64 : Int) = (u : Int) ∧ -(2 ^ 63) ≤ castU64 u ∧ castU64 u < 2 ^ 63 := by
  unfold castU64
  split <;> omega

theorem countP_split (l : List Nat) (s : Nat) :
    l.countP (fun x => decide (s ≤ x)) =
      l.countP (fun x => decide (s + 1 ≤ x)) + l.countP (fun x => decide (x = s)) := by
  induction l with
  | nil => rfl
  | cons a l ih =>
    simp only [List.countP_cons, ih]
    by_cases h1 : s ≤ a <;> by_cases h2 : s + 1 ≤ a <;> by_cases h3 : a = s <;>
      simp [h1, h2, h3] <;> omega

theorem findFreeAux_spec :
    ∀ (fuel : Nat) (ex : List Nat) (start : Nat),
      ex.countP (fun x => decide (start ≤ x)) < fuel →
      (findFreeAux fuel ex start ∉ ex ∧ start ≤ findFreeAux fuel ex start ∧
        ∀ j, start ≤ j → j < findFreeAux fuel ex start → j ∈ ex) := by
  intro fuel
  induction fuel with
  | zero => intro ex start h; omega
  | succ fuel ih =>
    intro ex start h
    by_cases hm : start ∈ ex
    · have hpos : 0 < ex.countP (fun x => decide (x = start)) :=
        List.countP_pos.2 ⟨start, hm, by simp⟩
      have hcount : ex.countP (fun x => decide (start + 1 ≤ x)) < fuel := by
        have := countP_split ex start
        omega
      obtain ⟨h1, h2, h3⟩ := ih ex (start + 1) hcount
      have heq : findFreeAux (fuel + 1) ex start = findFreeAux fuel ex (start + 1) := by
        simp [findFreeAux, hm]
      rw [heq]
      refine ⟨h1, by omega, fun j hj1 hj2 => ?_⟩
      rcases Nat.eq_or_lt_of_le hj1 with rfl | hlt
      · exact hm
      · exact h3 j hlt hj2
    · have heq : findFreeAux (fuel + 1) ex start = start := by
        simp [findFreeAux, hm]
      rw [heq]
      exact ⟨hm, Nat.le_refl _,
        fun j hj1 hj2 => absurd (Nat.lt_of_le_of_lt hj1 hj2) (Nat.lt_irrefl _)⟩

theorem findFree_spec (ex : List Nat) (start : Nat) :
    findFree ex start ∉ ex ∧ start ≤ findFree ex start ∧
      ∀ j, start ≤ j → j < findFree ex start → j ∈ ex := by
  apply findFreeAux_spec
  have := List.countP_le_length (p := fun x => decide (start ≤ x)) (l := ex)
  omega

theorem decDigitsAux_len :
    ∀ (fuel n k : Nat), n < fuel → 1 ≤ k → n < 10 ^ k →
      (decDigitsAux fuel n).length ≤ k := by
  intro fuel
  induction fuel with
  | zero => intro n k h; omega
  | succ fuel ih =>
    intro n k hn hk hk10
    by_cases h10 : n < 10
    · simp [decDigitsAux, h10]; omega
    · have hk2 : 2 ≤ k := by
        by_contra hc
        have hk1 : k = 1 := by omega
        subst hk1
        simp at hk10
        omega
      have h1 : n / 10 < fuel := by omega
      have hdiv : n / 10 < 10 ^ (k - 1) := by
        rw [Nat.div_lt_iff_lt_mul (by norm_num)]
        have h2 : 10 ^ (k - 1) * 10 = 10 ^ k := by
          rw [← pow_succ]
          congr 1
          omega
        omega
      have := ih (n / 10) (k - 1) h1 (by omega) hdiv
      simp only [decDigitsAux, h10, if_false, List.length_append, List.length_cons,
        List.length_nil]
      omega

theorem pad9_length (n : Nat) (h : n < 10 ^ 9) : (pad9 n).length = 9 := by
  have hlen : (decDigits n).length ≤ 9 :=
    decDigitsAux_len (n + 1) n 9 (by omega) (by omega) h
  simp only [pad9, decDigits] at hlen ⊢
  show (List.replicate (9 - (decDigitsAux (n + 1) n).length) '0' ++ decDigitsAux (n + 1) n).length = 9
  simp [List.length_append, List.length_replicate]
  omega

theorem seqConcat_map {α β : Type} (g : α → β) :
    ∀ os : List (Option (List α)),
      (seqConcat os).map (List.map g) = seqConcat (os.map (Option.map (List.map g))) := by
  intro os
  induction os with
  | nil => rfl
  | cons o os ih =>
    cases o with
    | none => rfl
    | some x =>
      cases hs : seqConcat os with
      | none => simp [seqConcat, hs, ← ih]
      | some ys => simp [seqConcat, hs, ← ih]

theorem schemaF_setOpt (t : PType) :
    ∀ (pfx : Option String) (lt : Option PLogicalType),
      schemaF t pfx (some .optional) lt = (schemaF t pfx none lt).map (List.map setOpt) := by
  induction t
  case poption t ih =>
    intro pfx lt
    show schemaF t pfx (some .optional) lt =
      (schemaF t pfx (some .optional) lt).map (List.map setOpt)
    rw [ih pfx lt]
    cases hs : schemaF t pfx none lt <;>
      simp [List.map_map, Function.comp, setOpt]
  case ppair x y ihx ihy =>
    intro pfx lt
    cases pfx with
    | none =>
      simp only [schemaF]
      rw [ihx, ihy]
      cases hx : schemaF x none none lt <;> cases hy : schemaF y none none lt <;> simp
    | some p =>
      simp only [schemaF]
      rw [ihx, ihy]
      cases hx : schemaF x (some (p ++ "_0")) none lt <;>
        cases hy : schemaF y (some (p ++ "_1")) none lt <;> simp
  case parray t n ih =>
    intro pfx lt
    simp only [schemaF]
    rw [seqConcat_map]
    congr 1
    simp only [List.map_map]
    exact List.map_congr_left fun i _ => ih (some (idxName pfx i)) lt
  case sfield nm ig attr ty rest ihty ihrest =>
    intro pfx lt
    by_cases hig : ig
    · simp only [schemaF, hig, if_true]
      rw [ihrest]
      cases hr : schemaF rest pfx none lt <;> simp [seqConcat]
    · simp only [schemaF, hig, if_false, Bool.false_eq_true]
      rw [ihty, ihrest]
      cases hy : schemaF ty (some (childName pfx nm)) none (attrLogical attr) <;>
        cases hr : schemaF rest pfx none lt <;> simp
  case snil => intro pfx lt; rfl
  all_goals (intro pfx lt; cases pfx <;> simp [schemaF, setOpt])

theorem schemaF_opt_rep (t : PType) (pfx : Option String) (lt : Option PLogicalType)
    (ls : List Leaf) (h : schemaF t pfx (some .optional) lt = some ls) :
    ∀ l ∈ ls, l.repetition = .optional := by
  rw [schemaF_setOpt] at h
  cases hs : schemaF t pfx none lt with
  | none => rw [hs] at h; exact Option.noConfusion h
  | some ls0 =>
    rw [hs] at h
    simp only [Option.map_some', Option.some.injEq] at h
    intro l hl
    rw [← h] at hl
    obtain ⟨x, -, rfl⟩ := List.mem_map.1 hl
    rfl

theorem disabledOps (w : TableWriter) (h : w.enabled = false) (t : PType) (v : PValue) :
    w.begin = (none, w) ∧ w.recordVal t v = (none, w) ∧ w.endRow = (none, w) ∧
      w.flush = (none, w) := by
  refine ⟨?_, ?_, ?_, ?_⟩ <;>
    simp [TableWriter.begin, TableWriter.recordVal, TableWriter.endRow, TableWriter.flush, h]

/-- C1 (amended): every `TableWriter::flush` that runs its scan appends one
file whose index is the first free slot at or above `file_index`: the index
does not collide with any existing file, every smaller candidate from
`file_index` up was occupied, `file_index` moves past the chosen index, and
the file name is the 9-digit zero-padded `NNNNNNNNN.parquet` render of the
index (exactly 9 digits whenever the index is below `10^9`).  The original
claim's "strictly greater than every existing index" is weakened to
"distinct from every existing index": the scan fills gaps below a larger
existing index. -/
theorem claim_C1 (w : TableWriter) (hen : w.enabled = true)
    (hne : w.buffer.isEmpty = false) (sch : List Leaf) (hs : w.schema = some sch) :
    ∃ chosen,
      (∃ cnt, (w.flush).2.files = w.files ++ [(chosen, cnt)]) ∧
      (w.flush).2.fileIndex = chosen + 1 ∧
      chosen ∉ w.files.map Prod.fst ∧
      w.fileIndex ≤ chosen ∧
      (∀ j, w.fileIndex ≤ j → j < chosen → j ∈ w.files.map Prod.fst) ∧
      parquetFileName chosen = pad9 chosen ++ ".parquet" ∧
      (chosen < 10 ^ 9 → (pad9 chosen).length = 9) := by
  obtain ⟨hf1, hf2, hf3⟩ := findFree_spec (w.files.map Prod.fst) w.fileIndex
  have hcond : (w.buffer.isEmpty || !w.enabled) = false := by simp [hne, hen]
  refine ⟨findFree (w.files.map Prod.fst) w.fileIndex, ?_, ?_, hf1, hf2, hf3, rfl,
    fun h9 => pad9_length _ h9⟩
  · simp only [TableWriter.flush, hcond, Bool.false_eq_true, if_false, hs]
    cases hr : w.buffer.record (sch.map fun l : Leaf => physToWriter l.physical) with
    | error e => exact ⟨0, by simp [hr]⟩
    | ok r =>
      obtain ⟨b2, bvs, n⟩ := r
      exact ⟨n, by simp [hr]⟩
  · simp only [TableWriter.flush, hcond, Bool.false_eq_true, if_false, hs]
    cases hr : w.buffer.record (sch.map fun l : Leaf => physToWriter l.physical) with
    | error e => simp [hr]
    | ok r =>
      obtain ⟨b2, bvs, n⟩ := r
      simp [hr]

/-- C1 counterexample: a directory holding `000000000.parquet` and
`000000005.parquet` (gap at 1..4).  `flush` writes index 1, which is NOT
strictly greater than the existing index 5, refuting the claim as stated. -/
theorem claim_C1_counterexample :
    (5 : Nat) ∈ gapWriter.files.map Prod.fst ∧
    (gapWriter.flush).1 = none ∧
    (gapWriter.flush).2.files = gapWriter.files ++ [(1, 1)] ∧
    ¬ (∀ i ∈ gapWriter.files.map Prod.fst, i < 1) := by decide

/-- C1 witness: the amended theorem applied to the gap writer. -/
theorem claim_C1_witness :
    ∃ chosen,
      (∃ cnt, (gapWriter.flush).2.files = gapWriter.files ++ [(chosen, cnt)]) ∧
      (gapWriter.flush).2.fileIndex = chosen + 1 ∧
      chosen ∉ gapWriter.files.map Prod.fst ∧
      gapWriter.fileIndex ≤ chosen ∧
      (∀ j, gapWriter.fileIndex ≤ j → j < chosen → j ∈ gapWriter.files.map Prod.fst) ∧
      parquetFileName chosen = pad9 chosen ++ ".parquet" ∧
      (chosen < 10 ^ 9 → (pad9 chosen).length = 9) :=
  claim_C1 gapWriter (by decide) (by decide) [⟨"a", .int32, .required, none⟩] (by decide)

/-- C2 (amended): the table directory is created iff `config.directory` is
non-empty, and wiped first iff additionally `keep = false` — regardless of
the tables whitelist (so a writer disabled only by the whitelist still
creates and may wipe the directory, refuting the original "only when
enabled").  A freshly constructed writer has no fields and no schema, and
every operation of a disabled writer succeeds and leaves it (including its
directory contents) exactly unchanged: no file is created and no schema is
derived. -/
theorem claim_C2 (pfx : String) (cfg : PersistConfig) (existing : List (Nat × Nat))
    (w : TableWriter) (hw : w.enabled = false) (t : PType) (v : PValue) :
    ((TableWriter.new pfx cfg existing).2.createdDir = true ↔ cfg.directory ≠ "") ∧
    ((TableWriter.new pfx cfg existing).2.wipedDir = true ↔
      cfg.directory ≠ "" ∧ cfg.keep = false) ∧
    ((TableWriter.new pfx cfg existing).1.enabled = true ↔
      ((cfg.tables = [] ∨ pfx ∈ cfg.tables) ∧ cfg.directory ≠ "")) ∧
    (TableWriter.new pfx cfg existing).1.fields = [] ∧
    (TableWriter.new pfx cfg existing).1.schema = none ∧
    w.begin = (none, w) ∧ w.recordVal t v = (none, w) ∧ w.endRow = (none, w) ∧
    w.flush = (none, w) := by
  obtain ⟨h1, h2, h3, h4⟩ := disabledOps w hw t v
  refine ⟨?_, ?_, ?_, rfl, rfl, h1, h2, h3, h4⟩ <;>
    simp [TableWriter.new, List.isEmpty_iff, and_comm]

/-- C2 counterexample: `directory = "data"`, `keep = false`,
`tables = ["other"]`, table `"foo"`: the writer is not enabled, yet the
directory is created and wiped. -/
theorem claim_C2_counterexample :
    (TableWriter.new "foo" ⟨"data", false, ["other"]⟩ [(3, 7)]).1.enabled = false ∧
    (TableWriter.new "foo" ⟨"data", false, ["other"]⟩ [(3, 7)]).2.createdDir = true ∧
    (TableWriter.new "foo" ⟨"data", false, ["other"]⟩ [(3, 7)]).2.wipedDir = true := by
  decide

/-- C2 witness: the amended theorem applied to the whitelist-disabled
writer. -/
theorem claim_C2_witness :
    disabledWriter.begin = (none, disabledWriter) ∧
    disabledWriter.recordVal rollT rollV = (none, disabledWriter) ∧
    disabledWriter.endRow = (none, disabledWriter) ∧
    disabledWriter.flush = (none, disabledWriter) :=
  let h := claim_C2 "foo" ⟨"data", false, ["other"]⟩ [(3, 7)] disabledWriter (by decide)
    rollT rollV
  ⟨h.2.2.2.2.2.1, h.2.2.2.2.2.2.1, h.2.2.2.2.2.2.2.1, h.2.2.2.2.2.2.2.2⟩

/-- C3: for every Persistable type and every well-typed value, one `append`
call pushes exactly as many fields as `schema` emits leaves (for any prefix,
repetition override and logical type), and this count is `field_count()`. -/
theorem claim_C3 (t : PType) (v : PValue) (fs : List Field) (h : appendF t v = some fs) :
    fs.length = fieldCountF t ∧
    ∀ (p : String) (ro : Option Repetition) (lt : Option PLogicalType),
      ∃ ls, schemaF t (some p) ro lt = some ls ∧ ls.length = fs.length := by
  have hlen := appendF_length v t fs h
  refine ⟨by rw [hlen, fieldCountF_eq], fun p ro lt => ?_⟩
  obtain ⟨ls, hls, hl⟩ := schemaF_some t p ro lt
  exact ⟨ls, hls, by rw [hl, hlen]⟩

/-- C3 witness: the nested `tob` record appends 4 fields, matching its
field count. -/
theorem claim_C3_witness :
    appendF demoTob demoTobValue = some [.double 1, .double 2, .double 3, .double 4] ∧
    [Field.double 1, .double 2, .double 3, .double 4].length = fieldCountF demoTob := by
  have h : appendF demoTob demoTobValue =
      some [.double 1, .double 2, .double 3, .double 4] := by decide
  exact ⟨h, (claim_C3 demoTob demoTobValue _ h).1⟩

/-- C4: `Option<T>::append` on `None` pushes exactly `T::field_count()`
`Null` entries (as many as any schema of `T` has leaves), on `Some(v)` it
delegates to `T::append`, and `Option<T>::schema` produces exactly `T`'s
leaves with repetition forced to OPTIONAL. -/
theorem claim_C4 (t : PType) :
    appendF (.poption t) .vNone = some (List.replicate (fieldCountF t) .null) ∧
    (∀ v, appendF (.poption t) (.vSome v) = appendF t v) ∧
    (∀ (p : String) (ro : Option Repetition) (lt : Option PLogicalType) (ls : List Leaf),
      schemaF t (some p) none lt = some ls →
        schemaF (.poption t) (some p) ro lt = some (ls.map setOpt)) ∧
    (∀ (pfx : Option String) (ro : Option Repetition) (lt : Option PLogicalType)
      (ls : List Leaf), schemaF (.poption t) pfx ro lt = some ls →
        ∀ l ∈ ls, l.repetition = .optional) ∧
    (∀ (p : String) (ro : Option Repetition) (lt : Option PLogicalType) (ls : List Leaf),
      schemaF (.poption t) (some p) ro lt = some ls → ls.length = fieldCountF t) := by
  refine ⟨rfl, fun v => rfl, fun p ro lt ls h => ?_, fun pfx ro lt ls h => ?_,
    fun p ro lt ls h => ?_⟩
  · show schemaF t (some p) (some .optional) lt = some (ls.map setOpt)
    rw [schemaF_setOpt, h, Option.map_some']
  · exact schemaF_opt_rep t pfx lt ls h
  · obtain ⟨ls2, h2, hl2⟩ := schemaF_some t p (some .optional) lt
    have heq : ls = ls2 := Option.some.inj (h.symm.trans h2)
    rw [heq, hl2, fieldCountF_eq]

/-- C4 witness: `Option<f64>` at `None` pushes one `Null`; its schema is the
DOUBLE leaf turned OPTIONAL. -/
theorem claim_C4_witness :
    appendF (.poption .pf64) .vNone = some (List.replicate (fieldCountF .pf64) .null) ∧
    schemaF (.poption .pf64) (some "x") none none =
      some [⟨"x", .double, .optional, none⟩] := by
  have h := claim_C4 .pf64
  refine ⟨h.1, ?_⟩
  have h3 := h.2.2.1 "x" none none [⟨"x", .double, .required, none⟩] (by decide)
  rw [h3]
  decide

/-- C5: in `RowBuffer::record`, `Int` and `UInt` fields both feed an INT32
column and `Long`/`ULong` both feed an INT64 column, with `as i32`/`as i64`
casts that preserve the unsigned bit pattern; and (given one lane per
schema column) `record` returns an error if and only if the buffer is
non-empty and some column has an unsupported writer type or a non-`Null`
field whose tag does not match the column's physical type. -/
theorem claim_C5 (kinds : List ColumnWriterKind) (b : RowBuffer)
    (hlen : kinds.length = b.rows.length) :
    ((∃ r, b.record kinds = .ok r) ↔
      (b.len = 0 ∨ ∀ p ∈ kinds.zip b.rows, goodColumn p.1 p.2)) ∧
    (∀ col xs, gatherI32s col = .ok xs → xs = col.filterMap pickI32) ∧
    (∀ col xs, gatherI64s col = .ok xs → xs = col.filterMap pickI64) ∧
    (∀ u, u < 2 ^ 32 → castU32 u % (2 ^ 32 : Int) = (u : Int) ∧
      -(2 ^ 31) ≤ castU32 u ∧ castU32 u < 2 ^ 31) ∧
    (∀ u, u < 2 ^ 64 → castU64 u % (2 ^ 64 : Int) = (u : Int) ∧
      -(2 ^ 63) ≤ castU64 u ∧ castU64 u < 2 ^ 63) :=
  ⟨rowBufferRecord_ok b kinds hlen, gatherI32s_eq, gatherI64s_eq, castU32_bits, castU64_bits⟩

/-- C5 witness: a two-column buffer (INT32 with `Int`/`UInt`, INT64 with
`Long`/`ULong`) records successfully. -/
theorem claim_C5_witness :
    ∃ r, RowBuffer.record ⟨[[.int 3, .uint 2147483653], [.long 9, .ulong 7]], 2⟩
      [.int32W, .int64W] = .ok r :=
  (claim_C5 [.int32W, .int64W] ⟨[[.int 3, .uint 2147483653], [.long 9, .ulong 7]], 2⟩
    (by decide)).1.mpr (Or.inr (by decide))

/-- C6: the record `{tob: (PriceLevel, PriceLevel)}` with
`PriceLevel = {price: f64, quantity: f64}` derives exactly the four DOUBLE
REQUIRED leaves `tob_0_price, tob_0_quantity, tob_1_price, tob_1_quantity`
in order; in general a pair under prefix `p` expands its components under
`p_0` and `p_1`. -/
theorem claim_C6 :
    schemaF demoTob none none none = some
      [⟨"tob_0_price", .double, .required, none⟩,
       ⟨"tob_0_quantity", .double, .required, none⟩,
       ⟨"tob_1_price", .double, .required, none⟩,
       ⟨"tob_1_quantity", .double, .required, none⟩] ∧
    ∀ (x y : PType) (p : String) (ro : Option Repetition) (lt : Option PLogicalType),
      schemaF (.ppair x y) (some p) ro lt =
        (schemaF x (some (p ++ "_0")) ro lt).bind fun xs =>
          (schemaF y (some (p ++ "_1")) ro lt).map fun ys => xs ++ ys :=
  ⟨by decide, fun x y p ro lt => rfl⟩

/-- C7: with `flush_size = 3` and `auto_flush = true`, recording 7
single-record rows and then flushing explicitly produces exactly the files
`000000000` (3 rows), `000000001` (3 rows), `000000002` (1 row); and
`RowBuilder::record` never touches the directory, so a flush can only
happen at a row boundary (`begin`/`end`) or explicitly. -/
theorem claim_C7 :
    ((andThen (runRows rollT rollV 7 rollWriter) TableWriter.flush).1 = none ∧
     (andThen (runRows rollT rollV 7 rollWriter) TableWriter.flush).2.files =
       [(0, 3), (1, 3), (2, 1)]) ∧
    ∀ (w : TableWriter) (t : PType) (v : PValue),
      ((w.recordVal t v).2).files = w.files := by
  refine ⟨by decide, fun w t v => ?_⟩
  unfold TableWriter.recordVal
  split
  · split
    · rfl
    · split <;> rfl
  · rfl

/-- C9: calling `flush` on an enabled writer with a non-empty buffer before
the first row's `end` (schema not yet frozen) returns the
"schema has not been created" `Other` error and leaves the writer — its
buffer and its directory — exactly unchanged. -/
theorem claim_C9 (w : TableWriter) (hen : w.enabled = true)
    (hne : w.buffer.isEmpty = false) (hs : w.schema = none) :
    w.flush = (some (.other "schema has not been created"), w) := by
  simp [TableWriter.flush, hen, hne, hs]

/-- C9 witness: the unfrozen writer. -/
theorem claim_C9_witness :
    unfrozenWriter.flush = (some (.other "schema has not been created"), unfrozenWriter) :=
  claim_C9 unfrozenWriter (by decide) (by decide) (by decide)

/-- C8: the `DateTime` impl emits one INT64 leaf, REQUIRED unless
overridden, with logical type TIMESTAMP(NANOS, adjusted to UTC); `append`
pushes `ULong(timestamp_nanos_opt().unwrap_or_default() as u64)`: the exact
nanosecond count for representable non-negative timestamps, and 0 whenever
the nanosecond conversion overflows the `i64` range. -/
theorem claim_C8 :
    (∀ (p : String) (ro : Option Repetition) (lt : Option PLogicalType),
      schemaF .pdatetime (some p) ro lt =
        some [⟨p, .int64, ro.getD .required, some (.timestamp true .nanos)⟩]) ∧
    (∀ n : Int, appendF .pdatetime (.vDateTime n) =
      some [.ulong (u64cast ((timestampNanosOpt n).getD 0))]) ∧
    (∀ n : Int, 0 ≤ n → n < 2 ^ 63 →
      appendF .pdatetime (.vDateTime n) = some [.ulong n.toNat]) ∧
    (∀ n : Int, timestampNanosOpt n = none →
      appendF .pdatetime (.vDateTime n) = some [.ulong 0]) := by
  refine ⟨fun p ro lt => rfl, fun n => rfl, fun n h0 h63 => ?_, fun n hof => ?_⟩
  · have ht : timestampNanosOpt n = some n := by
      simp only [timestampNanosOpt, if_pos]
      exact if_pos ⟨by omega, h63⟩
    simp only [appendF, ht, Option.getD_some, u64cast, Option.some.injEq, List.cons.injEq,
      and_true, Field.ulong.injEq]
    omega
  · simp only [appendF, hof, Option.getD_none, u64cast, Option.some.injEq, List.cons.injEq,
      and_true, Field.ulong.injEq]
    decide

/-- C8 witness: 1700000000000000000 ns is stored exactly; an out-of-range
timestamp stores 0. -/
theorem claim_C8_witness :
    appendF .pdatetime (.vDateTime 1700000000000000000) =
      some [.ulong 1700000000000000000] ∧
    appendF .pdatetime (.vDateTime (2 ^ 63)) = some [.ulong 0] :=
  ⟨(claim_C8.2.2.1 1700000000000000000 (by norm_num) (by norm_num)),
   (claim_C8.2.2.2 (2 ^ 63) (by decide))⟩

/-- C10: `Duration::append` pushes `ULong(as_nanos() as u64)`: the
nanosecond count reduced modulo `2^64`, so a duration beyond `u64::MAX`
nanoseconds wraps (the stored value is strictly smaller than the true
count) instead of saturating or erroring. -/
theorem claim_C10 (n : Nat) :
    appendF .pduration (.vDuration n) = some [.ulong (n % 2 ^ 64)] ∧
    (2 ^ 64 ≤ n → n % 2 ^ 64 < n ∧ n % 2 ^ 64 = n - 2 ^ 64 * (n / 2 ^ 64)) := by
  refine ⟨rfl, fun h => ⟨?_, ?_⟩⟩ <;> omega

/-- C10 witness: `2^64 + 5` nanoseconds is stored as 5, not as
`u64::MAX`. -/
theorem claim_C10_witness :
    appendF .pduration (.vDuration (2 ^ 64 + 5)) = some [.ulong 5] ∧
    (2 ^ 64 + 5) % 2 ^ 64 < 2 ^ 64 + 5 := by
  have h := claim_C10 (2 ^ 64 + 5)
  exact ⟨by rw [h.1]; norm_num, (h.2 (by norm_num)).1⟩

end Dixit
